import Mathlib

/-!
Verification of the alpharush room/round session engine
(`backend/server.js` and `backend/models/Room.js`).

The backend is shallowly embedded: JavaScript strings are lists of UTF-16
code units (`List Nat`), the per-room in-memory `answersMap` slice is an
association list from round numbers to round data, and the mongoose `Room`
document is the `RoomState` structure.  Socket handlers become pure
functions from a state (plus the caller's socket id and the random index
consumed by `Math.random`) to a new state together with the list of
emitted events; handlers that can answer the acknowledgment callback with
`{ok:false, error}` return `Except String`.
-/

/-- The four answer categories of a round (`['Name','City','Thing','Animal']`). -/
inductive Cat : Type
  | Name
  | City
  | Thing
  | Animal
deriving DecidableEq, Repr

/-- The category list in source order. -/
def categories : List Cat := [Cat.Name, Cat.City, Cat.Thing, Cat.Animal]

/-! ### Character-level helpers

JavaScript string primitives used by the validation rules, on UTF-16 code
units.  `toLowerCase`/`toUpperCase` are modelled on the ASCII letters,
which is all the validation ever feeds them (non-ASCII values are rejected
by the alphabetic test before any case-folded comparison matters). -/

/-- Code-unit model of `String.prototype.toLowerCase` on ASCII. -/
def lowerChar (n : Nat) : Nat := if 65 ≤ n ∧ n ≤ 90 then n + 32 else n

/-- Code-unit model of `String.prototype.toUpperCase` on ASCII. -/
def upperChar (n : Nat) : Nat := if 97 ≤ n ∧ n ≤ 122 then n - 32 else n

/-- Model of `toLowerCase` on a whole string. -/
def lowerStr (l : List Nat) : List Nat := l.map lowerChar

/-- Membership in the character class `[a-zA-Z]` of the regex `/^[a-zA-Z]+$/`. -/
def isAlpha (n : Nat) : Prop := (65 ≤ n ∧ n ≤ 90) ∨ (97 ≤ n ∧ n ≤ 122)

instance (n : Nat) : Decidable (isAlpha n) :=
  inferInstanceAs (Decidable ((65 ≤ n ∧ n ≤ 90) ∨ (97 ≤ n ∧ n ≤ 122)))

/-- Membership in the character class `[a-z]` of the regex `/^[a-z]+$/`. -/
def isLowerAlpha (n : Nat) : Prop := 97 ≤ n ∧ n ≤ 122

instance (n : Nat) : Decidable (isLowerAlpha n) :=
  inferInstanceAs (Decidable (97 ≤ n ∧ n ≤ 122))

/-- The whole string matches `/^[a-zA-Z]+$/` apart from the nonemptiness,
which the caller checks separately. -/
def allAlpha (l : List Nat) : Prop := ∀ c ∈ l, isAlpha c

instance (l : List Nat) : Decidable (allAlpha l) :=
  inferInstanceAs (Decidable (∀ c ∈ l, isAlpha c))

/-- The whole string matches `/^[a-z]+$/` apart from the nonemptiness. -/
def allLowerAlpha (l : List Nat) : Prop := ∀ c ∈ l, isLowerAlpha c

instance (l : List Nat) : Decidable (allLowerAlpha l) :=
  inferInstanceAs (Decidable (∀ c ∈ l, isLowerAlpha c))

/-- The string matches `/^(.)\1+$/i`: at least two code units and every
unit equals the first one up to case (backreferences canonicalize case
under the `i` flag). -/
def repeatedCI (l : List Nat) : Prop :=
  2 ≤ l.length ∧ ∀ d ∈ l, lowerChar d = lowerChar (l.headD 0)

instance (l : List Nat) : Decidable (repeatedCI l) :=
  inferInstanceAs (Decidable (2 ≤ l.length ∧ ∀ d ∈ l, lowerChar d = lowerChar (l.headD 0)))

/-- ASCII whitespace removed by `String.prototype.trim` (tab through
carriage return, and space). -/
def isSpaceCode (n : Nat) : Bool := (9 ≤ n && n ≤ 13) || n == 32

/-- Model of `String.prototype.trim`. -/
def trimList (l : List Nat) : List Nat :=
  ((l.dropWhile isSpaceCode).reverse.dropWhile isSpaceCode).reverse

/-! ### Data model -/

/-- One element of the mongoose `players` array.  The `lastSubmitAt`
bookkeeping date is not modelled: no observable behaviour reads it. -/
structure Player : Type where
  socketId : String
  name : String
  score : Nat
deriving DecidableEq, Repr

/-- One `answersMap[roomId][round][socketId]` record: the last known
category values, whether a `submittedAt` timestamp is present (set only by
`submitAnswers`, never by `updateAnswers`), and the host-controlled
per-category `invalid` flags (an absent flag and a `false` flag are
indistinguishable to every reader, so both are `false` here). -/
structure PlayerEntry : Type where
  answers : Cat → List Nat
  submitted : Bool
  invalid : Cat → Bool

/-- The `{ answers: {} }` fallback used when a player has no entry. -/
def defaultEntry : PlayerEntry := ⟨fun _ => [], false, fun _ => false⟩

/-- One `answersMap[roomId][round]` object: the `_scored` marker plus the
per-player entries keyed by socket id. -/
structure RoundData : Type where
  scored : Bool
  entries : List (String × PlayerEntry)

/-- A room document together with its `answersMap[roomId]` slice.
`usedLetters` elements are `Option Nat` because `pickLetter` can return
`null` and the caller pushes the result unconditionally. -/
structure RoomState : Type where
  roomId : String
  password : String
  hostSocket : String
  players : List Player
  round : Nat
  usedLetters : List (Option Nat)
  ledger : List (Nat × RoundData)

/-- Broadcast events emitted to the room, with the payloads the claims
observe. -/
inductive Event : Type
  | roundStarted (round : Nat) (letter : Option Nat)
  | playerSubmitted (socketId : String) (round : Nat)
  | roundScored (round : Nat)
  | roomUpdate
  | gameOver (totals : List (String × Nat))
deriving DecidableEq, Repr

/-! ### Association-list primitives for the answers map -/

/-- Lookup of `answersMap[roomId][round]`. -/
def lookupRound : List (Nat × RoundData) → Nat → Option RoundData
  | [], _ => none
  | p :: rest, r => if p.1 = r then some p.2 else lookupRound rest r

/-- Assignment `answersMap[roomId][round] = rd` (object key update or
creation). -/
def setRound : List (Nat × RoundData) → Nat → RoundData → List (Nat × RoundData)
  | [], r, rd => [(r, rd)]
  | p :: rest, r, rd => if p.1 = r then (r, rd) :: rest else p :: setRound rest r rd

/-- Lookup of `answersMap[roomId][round][socketId]`. -/
def lookupEntry : List (String × PlayerEntry) → String → Option PlayerEntry
  | [], _ => none
  | e :: rest, sid => if e.1 = sid then some e.2 else lookupEntry rest sid

/-- Assignment `answersMap[roomId][round][socketId] = ent`. -/
def setEntry : List (String × PlayerEntry) → String → PlayerEntry → List (String × PlayerEntry)
  | [], sid, ent => [(sid, ent)]
  | e :: rest, sid, ent => if e.1 = sid then (sid, ent) :: rest else e :: setEntry rest sid ent

/-- The entry read with the `|| { answers: {} }` fallback. -/
def entryOf (entries : List (String × PlayerEntry)) (sid : String) : PlayerEntry :=
  (lookupEntry entries sid).getD defaultEntry

/-- The `_scored = true` assignment of `scoreRound`/`recomputeRoundScores`,
including the `if (!answersMap[roomId][round]) answersMap[roomId][round] = {}`
guard that creates the round object first when it is absent. -/
def setScoredTrue (l : List (Nat × RoundData)) (r : Nat) : List (Nat × RoundData) :=
  match lookupRound l r with
  | some rd => setRound l r { rd with scored := true }
  | none => setRound l r ⟨true, []⟩

/-! ### Letter allocator -/

/-- The alphabet `'ABCDEFGHIJKLMNOPQRSTUVWXYZ'.split('')` as code units. -/
def LETTERS : List Nat := (List.range 26).map (fun i => 65 + i)

/-- The helper `pickLetter(used)`: filter the alphabet down to the letters
whose `some`-image is not in `used` (a `null` element of `used` never
equals a letter) and index the remainder by the random draw, modelled by
the extra argument `k` standing for the value of
`Math.floor(Math.random()*remaining.length)` before the modulus. -/
def pickLetter (used : List (Option Nat)) (k : Nat) : Option Nat :=
  match h : LETTERS.filter (fun l => decide ((some l) ∉ used)) with
  | [] => none
  | c :: rest => some ((c :: rest).get ⟨k % (c :: rest).length, Nat.mod_lt _ (by simp)⟩)

/-! ### Validation and scoring -/

/-- The letter of the round as read by `scoreRound`:
`(room.usedLetters || [])[round - 1] || ''`, where an out-of-range index,
a `null` element and round `0` (index `-1`) all yield the falsy `''`,
modelled as `none`. -/
def currentLetterScore (used : List (Option Nat)) (r : Nat) : Option Nat :=
  if r = 0 then none else used.getD (r - 1) none

/-- The letter of a round as read by `recomputeRoundScores`:
`usedLetters[rNum-1] ? usedLetters[rNum-1].toLowerCase() : null`. -/
def letterOfRec (used : List (Option Nat)) (rn : Nat) : Option Nat :=
  if rn = 0 then none else (used.getD (rn - 1) none).map lowerChar

/-- The check chain of `scoreRound` (lines 240-249) applied to the already
trimmed value: reject empty, reject length `< 3`, reject
non-`/^[a-zA-Z]+$/`, reject `/^(.)\1+$/i`, reject a first character that
differs from the round letter after `toUpperCase` (skipped when the
letter is falsy), and on success return the normalized (lowercased) value
pushed into `catMap`. -/
def validChainScore (letter : Option Nat) : List Nat → Option (List Nat)
  | [] => none
  | c :: rest =>
    if (c :: rest).length < 3 then none
    else if ¬ allAlpha (c :: rest) then none
    else if repeatedCI (c :: rest) then none
    else
      match letter with
      | none => some (lowerStr (c :: rest))
      | some L => if upperChar c = upperChar L then some (lowerStr (c :: rest)) else none

/-- The per-value validation of `scoreRound`: trim, then the check chain. -/
def validValueScore (letter : Option Nat) (raw : List Nat) : Option (List Nat) :=
  validChainScore letter (trimList raw)

/-- The check chain of `recomputeRoundScores` (lines 327-335) applied to
the already trimmed-and-lowercased value: reject empty, length `< 3`,
non-`/^[a-z]+$/`, `/^(.)\1+$/i`, and a first character differing from the
(pre-lowercased) round letter; on success return the normalized value. -/
def validChainRec (letter : Option Nat) : List Nat → Option (List Nat)
  | [] => none
  | c :: rest =>
    if (c :: rest).length < 3 then none
    else if ¬ allLowerAlpha (c :: rest) then none
    else if repeatedCI (c :: rest) then none
    else
      match letter with
      | none => some (c :: rest)
      | some L => if c = L then some (c :: rest) else none

/-- The per-value validation of `recomputeRoundScores` (lines 326-335):
reject a host-invalidated category, trim and lowercase, then the check
chain. -/
def validValueRec (letter : Option Nat) (inval : Bool) (raw : List Nat) : Option (List Nat) :=
  if inval then none else validChainRec letter (lowerStr (trimList raw))

/-- Insertion into a `catMap[cat]` object: append the socket id to the
list of an existing normalized key, or add a fresh key at the end. -/
def addToGroup (m : List (List Nat × List String)) (k : List Nat) (sid : String) :
    List (List Nat × List String) :=
  match m with
  | [] => [(k, [sid])]
  | g :: rest => if g.1 = k then (g.1, g.2 ++ [sid]) :: rest else g :: addToGroup rest k sid

/-- Build one category's `catMap[cat]` from the players' precomputed
normalized values (a `none` value was rejected by validation and is not
pushed). -/
def buildGroups (norms : List (String × Option (List Nat))) : List (List Nat × List String) :=
  norms.foldl
    (fun m p => match p.2 with
      | some s => addToGroup m s p.1
      | none => m) []

/-- Number of occurrences of a socket id in a group's list. -/
def countOcc : List String → String → Nat
  | [], _ => 0
  | x :: rest, sid => (if x = sid then 1 else 0) + countOcc rest sid

/-- The points a socket id gains from one category's `catMap`: each key's
list yields `10` points when it is a singleton and `5` otherwise, once per
occurrence of the id in the list (`list.forEach(pid => roundScores[pid] += pts)`);
`scoreRound` additionally skips the key `''` (`skipEmpty`). -/
def groupPoints (skipEmpty : Bool) (groups : List (List Nat × List String)) (sid : String) : Nat :=
  (groups.map (fun g =>
    if skipEmpty = true ∧ g.1 = [] then 0
    else countOcc g.2 sid * (if g.2.length = 1 then 10 else 5))).sum

/-- The `(socketId, normalized value)` pairs produced by `scoreRound`'s
player loop for one category. -/
def catNormsScore (players : List Player) (entries : List (String × PlayerEntry))
    (letter : Option Nat) (cat : Cat) : List (String × Option (List Nat)) :=
  players.map (fun pl => (pl.socketId, validValueScore letter ((entryOf entries pl.socketId).answers cat)))

/-- The value `roundScores[sid]` computed by `scoreRound`: the sum over
the four categories of the points from that category's `catMap`. -/
def roundScoresScore (players : List Player) (entries : List (String × PlayerEntry))
    (letter : Option Nat) (sid : String) : Nat :=
  (categories.map (fun cat =>
    groupPoints true (buildGroups (catNormsScore players entries letter cat)) sid)).sum

/-- The `(socketId, normalized value)` pairs produced by
`recomputeRoundScores`' player loop for one category (here the `invalid`
flag participates). -/
def catNormsRec (players : List Player) (entries : List (String × PlayerEntry))
    (letter : Option Nat) (cat : Cat) : List (String × Option (List Nat)) :=
  players.map (fun pl =>
    (pl.socketId,
      validValueRec letter ((entryOf entries pl.socketId).invalid cat)
        ((entryOf entries pl.socketId).answers cat)))

/-- One round's contribution to a player's total in
`recomputeRoundScores` (no empty-key skip in this loop). -/
def roundScoresRec (players : List Player) (entries : List (String × PlayerEntry))
    (letter : Option Nat) (sid : String) : Nat :=
  (categories.map (fun cat =>
    groupPoints false (buildGroups (catNormsRec players entries letter cat)) sid)).sum

/-- The value `totals[sid]` of `recomputeRoundScores`: the sum over every
round present in the room's answers map of that round's contribution. -/
def recomputeTotals (players : List Player) (used : List (Option Nat))
    (ledger : List (Nat × RoundData)) (sid : String) : Nat :=
  (ledger.map (fun p => roundScoresRec players p.2.entries (letterOfRec used p.1) sid)).sum

/-! ### Socket handlers -/

/-- The scoring body of `scoreRound` once past the `_scored` guard:
compute `roundScores`, add them onto each player's cumulative score, set
the `_scored` marker, and emit `roundScored` plus `roomUpdate`. -/
def doScore (st : RoomState) (r : Nat) (entries : List (String × PlayerEntry)) :
    RoomState × List Event :=
  let letter := currentLetterScore st.usedLetters r
  ({ st with
      players := st.players.map (fun p =>
        { p with score := p.score + roundScoresScore st.players entries letter p.socketId }),
      ledger := setScoredTrue st.ledger r },
   [Event.roundScored r, Event.roomUpdate])

/-- `scoreRound(roomId, round)`: a round already marked `_scored` is a
silent no-op (nothing mutated, nothing emitted); otherwise score the
round's current entries (an absent round object scores as `{}`). -/
def scoreRound (st : RoomState) (r : Nat) : RoomState × List Event :=
  match lookupRound st.ledger r with
  | some rd => if rd.scored then (st, []) else doScore st r rd.entries
  | none => doScore st r []

/-- `recomputeRoundScores(roomId, round)`: rebuild every player's
cumulative score from scratch across all rounds in the answers map, set
the requested round's `_scored` marker, and emit `roundScored` plus
`roomUpdate`. -/
def recomputeRoundScores (st : RoomState) (r : Nat) : RoomState × List Event :=
  ({ st with
      players := st.players.map (fun p =>
        { p with score := recomputeTotals st.players st.usedLetters st.ledger p.socketId }),
      ledger := setScoredTrue st.ledger r },
   [Event.roundScored r, Event.roomUpdate])

/-- The `createRoom` handler, after the registry's duplicate check: the
stored password is `password || ''`. -/
def createRoom (roomId name : String) (password : Option String) (hostId : String) :
    Except String RoomState :=
  if roomId = "" ∨ name = "" then Except.error "roomId & name required"
  else Except.ok
    { roomId := roomId
      password := password.getD ""
      hostSocket := hostId
      players := [⟨hostId, name, 0⟩]
      round := 0
      usedLetters := []
      ledger := [] }

/-- The `joinRoom` handler on a found room: capacity check, then the
password check `room.password && room.password !== (password || '')`
(skipped entirely when the stored password is the empty string). -/
def joinRoom (st : RoomState) (callerId name : String) (password : Option String)
    (maxPlayers : Nat) : Except String RoomState :=
  if name = "" then Except.error "roomId & name required"
  else if maxPlayers ≤ st.players.length then Except.error "Room full"
  else if st.password ≠ "" ∧ st.password ≠ password.getD "" then Except.error "Wrong password"
  else Except.ok { st with players := st.players ++ [⟨callerId, name, 0⟩] }

/-- The `startGame` handler: host-gated; sets `round = 1`, pushes a fresh
letter (possibly `null`) onto `usedLetters` without clearing it, resets
the room's answers map to a single open round object, and emits
`roundStarted` plus `roomUpdate`. -/
def startGame (st : RoomState) (caller : String) (k : Nat) :
    Except String (RoomState × List Event) :=
  if st.hostSocket = caller then
    let letter := pickLetter st.usedLetters k
    Except.ok
      ({ st with
          round := 1
          usedLetters := st.usedLetters ++ [letter]
          ledger := [(1, ⟨false, []⟩)] },
       [Event.roundStarted 1 letter, Event.roomUpdate])
  else Except.error "Only host"

/-- The `nextRound` handler: host-gated; increments the round counter,
and either broadcasts `gameOver` with the players' names and scores in
array (join) order when the counter exceeds `26`, or pushes the next
letter, opens a fresh round object and emits `roundStarted` plus
`roomUpdate`. -/
def nextRound (st : RoomState) (caller : String) (k : Nat) :
    Except String (RoomState × List Event) :=
  if st.hostSocket = caller then
    let r' := st.round + 1
    if 26 < r' then
      Except.ok ({ st with round := r' },
        [Event.gameOver (st.players.map (fun p => (p.name, p.score)))])
    else
      let letter := pickLetter st.usedLetters k
      Except.ok
        ({ st with
            round := r'
            usedLetters := st.usedLetters ++ [letter]
            ledger := setRound st.ledger r' ⟨false, []⟩ },
         [Event.roundStarted r' letter, Event.roomUpdate])
  else Except.error "Only host"

/-- The `updateAnswers` handler (draft save): merge the new category
values over the previous entry, keeping a present `submittedAt` and the
`invalid` flags, and never setting a timestamp.  The round object is
created open when absent. -/
def updateAnswers (st : RoomState) (caller : String) (r : Nat) (ans : Cat → List Nat) :
    RoomState :=
  let rd := (lookupRound st.ledger r).getD ⟨false, []⟩
  let prev := (lookupEntry rd.entries caller).getD defaultEntry
  { st with ledger := setRound st.ledger r { rd with entries := setEntry rd.entries caller { prev with answers := ans } } }

/-- The `submitAnswers` handler on a found room: overwrite the caller's
entry with the answers and a fresh `submittedAt` (dropping any `invalid`
flags), emit `playerSubmitted`, and when the number of non-`_scored` keys
of the round object reaches the player count, run `scoreRound`. -/
def submitAnswers (st : RoomState) (caller : String) (r : Nat) (ans : Cat → List Nat) :
    RoomState × List Event :=
  let rd := (lookupRound st.ledger r).getD ⟨false, []⟩
  let rd' := { rd with entries := setEntry rd.entries caller ⟨ans, true, fun _ => false⟩ }
  let st1 := { st with ledger := setRound st.ledger r rd' }
  if st1.players.length ≤ rd'.entries.length then
    let res := scoreRound st1 r
    (res.1, Event.playerSubmitted caller r :: res.2)
  else (st1, [Event.playerSubmitted caller r])

/-- The `invalidateAnswer` handler: host-gated before any other check;
requires the round object and the target's entry to exist, toggles the
single `invalid[category]` flag to `!!invalidate`, and rebuilds all
totals through `recomputeRoundScores`. -/
def invalidateAnswer (st : RoomState) (caller : String) (r : Nat) (target : String)
    (cat : Cat) (inv : Bool) : Except String (RoomState × List Event) :=
  if st.hostSocket = caller then
    match lookupRound st.ledger r with
    | none => Except.error "No answers for round"
    | some rd =>
      match lookupEntry rd.entries target with
      | none => Except.error "Target player has no answers"
      | some ent =>
        let ent' := { ent with invalid := fun c => if c = cat then inv else ent.invalid c }
        let rd' := { rd with entries := setEntry rd.entries target ent' }
        Except.ok (recomputeRoundScores { st with ledger := setRound st.ledger r rd' } r)
  else Except.error "Only host"

/-- The score of the first player of a list with the given socket id
(the read `room.players.find(p => p.socketId === sid)?.score`). -/
def findScore : List Player → String → Option Nat
  | [], _ => none
  | p :: rest, sid => if p.socketId = sid then some p.score else findScore rest sid

/-- The stored cumulative score of the (first) player with the given
socket id. -/
def scoreOf (st : RoomState) (sid : String) : Option Nat :=
  findScore st.players sid

/-! ### Basic lemmas about the answers-map primitives -/

theorem lookupRound_setRound_self (l : List (Nat × RoundData)) (r : Nat) (rd : RoundData) :
    lookupRound (setRound l r rd) r = some rd := by
  induction l with
  | nil => simp [setRound, lookupRound]
  | cons p rest ih =>
    by_cases h : p.1 = r
    · simp [setRound, h, lookupRound]
    · simp [setRound, h, lookupRound, ih]

theorem lookupRound_setRound_ne (l : List (Nat × RoundData)) (r r' : Nat) (rd : RoundData)
    (h : r' ≠ r) : lookupRound (setRound l r rd) r' = lookupRound l r' := by
  induction l with
  | nil => simp [setRound, lookupRound, Ne.symm h]
  | cons p rest ih =>
    by_cases hp : p.1 = r
    · simp [setRound, hp, lookupRound, Ne.symm h]
    · simp [setRound, hp, lookupRound, ih]

theorem lookupRound_setScoredTrue (l : List (Nat × RoundData)) (r : Nat) :
    ∃ rd', lookupRound (setScoredTrue l r) r = some rd' ∧ rd'.scored = true := by
  unfold setScoredTrue
  cases h : lookupRound l r with
  | none => exact ⟨⟨true, []⟩, lookupRound_setRound_self l r _, rfl⟩
  | some rd => exact ⟨{ rd with scored := true }, lookupRound_setRound_self l r _, rfl⟩

theorem lookupEntry_setEntry_self (l : List (String × PlayerEntry)) (sid : String)
    (ent : PlayerEntry) : lookupEntry (setEntry l sid ent) sid = some ent := by
  induction l with
  | nil => simp [setEntry, lookupEntry]
  | cons e rest ih =>
    by_cases h : e.1 = sid
    · simp [setEntry, h, lookupEntry]
    · simp [setEntry, h, lookupEntry, ih]

theorem lookupEntry_setEntry_ne (l : List (String × PlayerEntry)) (sid sid' : String)
    (ent : PlayerEntry) (h : sid' ≠ sid) :
    lookupEntry (setEntry l sid ent) sid' = lookupEntry l sid' := by
  induction l with
  | nil => simp [setEntry, lookupEntry, Ne.symm h]
  | cons e rest ih =>
    by_cases hp : e.1 = sid
    · simp [setEntry, hp, lookupEntry, Ne.symm h]
    · simp [setEntry, hp, lookupEntry, ih]

/-! ### Claim C1: scoring is idempotent -/

/-- Claim C1.  Scoring a round is idempotent: after one `scoreRound` call
the round carries the `_scored` marker, so a second call on the same
`(room, round)` with no state change in between returns the state
untouched (identical cumulative totals) and emits nothing: the guard
fires before any score is touched. -/
theorem scoreRound_idempotent (st : RoomState) (r : Nat) :
    scoreRound (scoreRound st r).1 r = ((scoreRound st r).1, []) := by
  unfold scoreRound
  cases h : lookupRound st.ledger r with
  | none =>
    simp only [doScore]
    obtain ⟨rd', hrd', hsc⟩ := lookupRound_setScoredTrue st.ledger r
    simp [hrd', hsc]
  | some rd =>
    by_cases hs : rd.scored
    · simp [h, hs]
    · simp only [hs, if_false, doScore]
      obtain ⟨rd', hrd', hsc⟩ := lookupRound_setScoredTrue st.ledger r
      simp [hs, hrd', hsc]

/-! ### Claim C6: host-only actions -/

/-- Claim C6.  Each of the host-only handlers `startGame`, `nextRound`
and `invalidateAnswer` answers `'Only host'` for every caller that is not
the room's current host, whatever the room composition and arguments; the
error is returned before any mutation, so the room state is unchanged. -/
theorem host_only_reject (st : RoomState) (caller : String) (k r : Nat) (target : String)
    (cat : Cat) (b : Bool) (h : caller ≠ st.hostSocket) :
    startGame st caller k = Except.error "Only host" ∧
    nextRound st caller k = Except.error "Only host" ∧
    invalidateAnswer st caller r target cat b = Except.error "Only host" := by
  refine ⟨?_, ?_, ?_⟩ <;> simp [startGame, nextRound, invalidateAnswer, Ne.symm h]

/-- Witness for C6 at a concrete non-host caller and room. -/
theorem host_only_reject_witness :
    startGame ⟨"R", "", "h", [⟨"h", "Al", 0⟩], 0, [], []⟩ "x" 0 = Except.error "Only host" ∧
    nextRound ⟨"R", "", "h", [⟨"h", "Al", 0⟩], 0, [], []⟩ "x" 0 = Except.error "Only host" ∧
    invalidateAnswer ⟨"R", "", "h", [⟨"h", "Al", 0⟩], 0, [], []⟩ "x" 1 "h" Cat.Name true =
      Except.error "Only host" :=
  host_only_reject ⟨"R", "", "h", [⟨"h", "Al", 0⟩], 0, [], []⟩ "x" 0 1 "h" Cat.Name true
    (by decide)

/-! ### Claim C10: empty access secret never yields a wrong-password error -/

/-- Claim C10.  A room created with an absent or empty password stores
the empty string, and `joinRoom` on any room whose stored password is the
empty string never fails with `'Wrong password'`, whatever string the
joining client supplies: the comparison is guarded by the truthiness of
the stored secret. -/
theorem empty_secret_join :
    (∀ st sid nm pw mx, st.password = "" →
      joinRoom st sid nm pw mx ≠ Except.error "Wrong password") ∧
    (∀ roomId nm host pw st', (pw = none ∨ pw = some "") →
      createRoom roomId nm pw host = Except.ok st' → st'.password = "") := by
  constructor
  · intro st sid nm pw mx hpw
    unfold joinRoom
    split
    · simp
    · split
      · simp
      · rw [if_neg]
        · simp
        · simp [hpw]
  · intro roomId nm host pw st' hpw hok
    unfold createRoom at hok
    split at hok
    · cases hok
    · cases hok
      rcases hpw with h | h <;> simp [h]

/-- Witness for C10: creating a room with no password and joining with an
arbitrary guess cannot produce the wrong-password error. -/
theorem empty_secret_join_witness :
    joinRoom ⟨"R", "", "h", [⟨"h", "Al", 0⟩], 0, [], []⟩ "z" "Zoe" (some "guess") 8 ≠
      Except.error "Wrong password" :=
  empty_secret_join.1 ⟨"R", "", "h", [⟨"h", "Al", 0⟩], 0, [], []⟩ "z" "Zoe" (some "guess") 8 rfl

/-! ### Claim C8: the letter allocator -/

theorem pickLetter_some_mem (used : List (Option Nat)) (k : Nat) (l : Nat)
    (h : pickLetter used k = some l) :
    l ∈ LETTERS.filter (fun x => decide ((some x) ∉ used)) := by
  unfold pickLetter at h
  split at h
  · cases h
  next c rest heq =>
    have hget := Option.some.inj h
    rw [← hget, heq]
    exact List.get_mem _ _ _

theorem pickLetter_none_iff (used : List (Option Nat)) (k : Nat) :
    pickLetter used k = none ↔ LETTERS.filter (fun x => decide ((some x) ∉ used)) = [] := by
  unfold pickLetter
  constructor
  · intro h
    split at h
    next heq => exact heq
    next => cases h
  · intro h
    split
    · rfl
    next c rest heq => rw [h] at heq; cases heq

/-- Claim C8.  `pickLetter` never returns a letter already in
`usedLetters` and always returns an alphabet letter; it returns `null`
exactly when every one of the 26 letters is already in `usedLetters`; and
whenever fewer than 26 letters have been drawn it succeeds.  (The JS
function builds a fresh `remaining` array with `filter` and only reads
`used`, so its input is never mutated; in this pure embedding that is
inherent.) -/
theorem pickLetter_spec (used : List (Option Nat)) (k : Nat) :
    (∀ l, pickLetter used k = some l → l ∈ LETTERS ∧ (some l) ∉ used) ∧
    (pickLetter used k = none ↔ ∀ l ∈ LETTERS, (some l) ∈ used) ∧
    (used.length < 26 → (pickLetter used k).isSome = true) := by
  have hfilter : ∀ x, x ∈ LETTERS.filter (fun x => decide ((some x) ∉ used)) ↔
      x ∈ LETTERS ∧ (some x) ∉ used := by
    intro x; rw [List.mem_filter]; simp
  refine ⟨?_, ?_, ?_⟩
  · intro l hl
    exact (hfilter l).1 (pickLetter_some_mem used k l hl)
  · rw [pickLetter_none_iff]
    constructor
    · intro h l hl
      by_contra hmem
      have hmem' := (hfilter l).2 ⟨hl, hmem⟩
      rw [h] at hmem'
      cases hmem'
    · intro h
      rcases hh : LETTERS.filter (fun x => decide ((some x) ∉ used)) with _ | ⟨c, rest⟩
      · rfl
      · exfalso
        have hc := (hfilter c).1 (by rw [hh]; exact List.mem_cons_self c rest)
        exact hc.2 (h c hc.1)
  · intro hlen
    rcases hp : pickLetter used k with _ | l
    · exfalso
      have hall := (pickLetter_none_iff used k).1 hp
      have hsub : LETTERS.map some ⊆ used := by
        intro x hx
        obtain ⟨l, hl, rfl⟩ := List.mem_map.1 hx
        by_contra hmem
        have hmem' := (hfilter l).2 ⟨hl, hmem⟩
        rw [hall] at hmem'
        cases hmem'
      have hnd : (LETTERS.map some).Nodup := by decide
      have hle := (hnd.subperm hsub).length_le
      have hlen26 : (LETTERS.map some).length = 26 := by decide
      rw [hlen26] at hle
      omega
    · rfl

/-- Witness for C8: on a fresh room the allocator yields a concrete fresh
alphabet letter, and succeeds below 26 draws. -/
theorem pickLetter_spec_witness :
    (65 ∈ LETTERS ∧ (some 65) ∉ ([] : List (Option Nat))) ∧
    (pickLetter ([] : List (Option Nat)) 0).isSome = true :=
  ⟨(pickLetter_spec [] 0).1 65 (by decide), (pickLetter_spec [] 0).2.2 (by decide)⟩

/-! ### Claim C7: the game-over broadcast -/

/-- Projection of a handler result onto its emitted events. -/
def okEvents : Except String (RoomState × List Event) → Option (List Event)
  | Except.ok p => some p.2
  | Except.error _ => none

/-- Projection of a handler result onto the new room state. -/
def okState : Except String (RoomState × List Event) → Option RoomState
  | Except.ok p => some p.1
  | Except.error _ => none

/-- A totals list is sorted by score descending. -/
def scoresDescBool : List Nat → Bool
  | [] => true
  | [_] => true
  | a :: b :: rest => decide (b ≤ a) && scoresDescBool (b :: rest)

/-- A two-player room after round 26 whose join order is not score order:
the first joiner has 5 points, the second 10. -/
def overState : RoomState :=
  ⟨"R", "", "h", [⟨"h", "A", 5⟩, ⟨"b", "B", 10⟩], 26, [], []⟩

/-- Counterexample to claim C7 as stated.  Invoking `nextRound` past
round 26 emits a `gameOver` whose totals are `[("A",5),("B",10)]` — the
players in join order — which is not sorted by score descending. -/
theorem gameover_order_cex :
    okEvents (nextRound overState "h" 0) = some [Event.gameOver [("A", 5), ("B", 10)]] ∧
    scoresDescBool ([("A", 5), ("B", 10)].map Prod.snd) = false := by
  decide

/-- Claim C7 as amended.  When the host invokes `nextRound` and the
incremented counter exceeds 26, the handler broadcasts exactly one
`gameOver` event whose totals list the players in original join order
with their scores (the broadcast is not sorted by score; the UI sorts for
display). -/
theorem gameover_totals_join_order (st : RoomState) (caller : String) (k : Nat)
    (hhost : st.hostSocket = caller) (hover : 26 < st.round + 1) :
    nextRound st caller k =
      Except.ok ({ st with round := st.round + 1 },
        [Event.gameOver (st.players.map (fun p => (p.name, p.score)))]) := by
  unfold nextRound
  rw [if_pos hhost, if_pos hover]

/-- Witness for C7's amended claim at the concrete two-player room. -/
theorem gameover_totals_join_order_witness :
    nextRound overState "h" 0 =
      Except.ok ({ overState with round := 27 }, [Event.gameOver [("A", 5), ("B", 10)]]) :=
  gameover_totals_join_order overState "h" 0 rfl (by decide)

/-! ### Claim C9: the used-letters invariant -/

/-- An idle one-player room fresh out of `createRoom`. -/
def idleState : RoomState := ⟨"R", "", "h", [⟨"h", "Al", 0⟩], 0, [], []⟩

/-- Counterexample to claim C9 as stated.  Directly after `startGame` on
a fresh room — a reachable in-progress state — the room has `round = 1`
and `usedLetters.length = 1`, but `max (round - 1) 0 = 0`: the letter of
the current round is already in the history, so the claimed
`usedLetters.length = max (round-1) 0` fails in every active state. -/
theorem usedLetters_invariant_cex :
    (okState (startGame idleState "h" 0)).map (fun st => (st.round, st.usedLetters.length)) =
      some (1, 1) ∧ (1 : Nat) ≠ max (1 - 1) 0 := by
  decide

/-- The corrected in-progress invariant: one letter per started round, no
duplicates, and every entry is a real alphabet letter. -/
def lettersInv (st : RoomState) : Prop :=
  st.usedLetters.length = st.round ∧ st.usedLetters.Nodup ∧
    ∀ x ∈ st.usedLetters, ∃ l, x = some l ∧ l ∈ LETTERS

/-- Claim C9 as amended.  Along the normal lifecycle the letter history
carries one letter per started round and never repeats a letter:
`startGame` from the idle state (round 0, empty history) establishes
`usedLetters.length = round` with no duplicates and only alphabet
letters; `nextRound` preserves that invariant while the game continues
(round below 26 before the increment); and once the incremented counter
exceeds 26 the history is left untouched. -/
theorem usedLetters_invariant :
    (∀ st caller k st' ev, st.round = 0 → st.usedLetters = [] →
      startGame st caller k = Except.ok (st', ev) → lettersInv st') ∧
    (∀ st caller k st' ev, lettersInv st → st.round < 26 →
      nextRound st caller k = Except.ok (st', ev) → lettersInv st') ∧
    (∀ st caller k st' ev, 26 ≤ st.round →
      nextRound st caller k = Except.ok (st', ev) → st'.usedLetters = st.usedLetters) := by
  refine ⟨?_, ?_, ?_⟩
  · intro st caller k st' ev h0 hused hok
    unfold startGame at hok
    split at hok
    · injection hok with hpair
      rw [Prod.mk.injEq] at hpair
      obtain ⟨rfl, rfl⟩ := hpair
      rcases hp : pickLetter st.usedLetters k with _ | l
      · exfalso
        have := (pickLetter_spec st.usedLetters k).2.2 (by rw [hused]; decide)
        rw [hp] at this
        cases this
      · have hl := (pickLetter_spec st.usedLetters k).1 l hp
        refine ⟨by simp [hused, hp], by simp [hused, hp], ?_⟩
        intro x hx
        rw [hused] at hx
        simp [hp] at hx
        exact ⟨l, hx, hl.1⟩
    · cases hok
  · intro st caller k st' ev hinv hlt hok
    unfold nextRound at hok
    split at hok
    · rw [if_neg (by omega)] at hok
      injection hok with hpair
      rw [Prod.mk.injEq] at hpair
      obtain ⟨rfl, rfl⟩ := hpair
      obtain ⟨hlen, hnd, hmem⟩ := hinv
      rcases hp : pickLetter st.usedLetters k with _ | l
      · exfalso
        have := (pickLetter_spec st.usedLetters k).2.2 (by omega)
        rw [hp] at this
        cases this
      · have hl := (pickLetter_spec st.usedLetters k).1 l hp
        refine ⟨by simp [hp, hlen], ?_, ?_⟩
        · simp only [List.nodup_append]
          exact ⟨hnd, List.nodup_singleton _, by
            intro x hx hx'
            simp at hx'
            rw [hx'] at hx
            exact hl.2 hx⟩
        · intro x hx
          rcases List.mem_append.1 hx with hx | hx
          · exact hmem x hx
          · simp at hx
            exact ⟨l, hx, hl.1⟩
    · cases hok
  · intro st caller k st' ev hge hok
    unfold nextRound at hok
    split at hok
    · rw [if_pos (by omega)] at hok
      injection hok with hpair
      rw [Prod.mk.injEq] at hpair
      obtain ⟨rfl, rfl⟩ := hpair
      rfl
    · cases hok

/-- Witness for C9's amended claim: `startGame` on the concrete idle room
establishes the invariant. -/
theorem usedLetters_invariant_witness :
    ∃ st' ev, startGame idleState "h" 0 = Except.ok (st', ev) ∧ lettersInv st' := by
  obtain ⟨st', ev, hok⟩ : ∃ st' ev, startGame idleState "h" 0 = Except.ok (st', ev) :=
    ⟨_, _, rfl⟩
  exact ⟨st', ev, hok, usedLetters_invariant.1 idleState "h" 0 st' ev rfl rfl hok⟩

/-! ### Claim C4: the auto-score trigger counts drafts -/

/-- Number of players of a round with an explicit submission (an entry
carrying a `submittedAt` timestamp). -/
def countSubmitted (st : RoomState) (r : Nat) : Nat :=
  match lookupRound st.ledger r with
  | some rd => (rd.entries.filter (fun e => e.2.submitted)).length
  | none => 0

/-- Bob's draft: the word `Bob` in every category, saved only through
`updateAnswers`. -/
def draftBob : Cat → List Nat := fun _ => [66, 111, 98]

/-- Alice's (empty) submission. -/
def emptyAnswers : Cat → List Nat := fun _ => []

/-- A two-player room in round 1 with letter `B` and an open empty round. -/
def twoPlayerRound1 : RoomState :=
  ⟨"R", "", "a", [⟨"a", "Alice", 0⟩, ⟨"b", "Bob", 0⟩], 1, [some 66], [(1, ⟨false, []⟩)]⟩

/-- Claim C4 evaluated at its failing input.  Bob only saves a draft
(zero explicit submissions), then Alice alone submits: the trigger
`Object.keys(answersMap[roomId][round]).filter(k => k !== '_scored').length`
counts Bob's draft entry, reaches the player count `2`, and fires
`scoreRound` (a `roundScored` broadcast is emitted) even though only one
of the two players has explicitly submitted — contradicting the claim
(and the spec's "drafts never count"). -/
theorem submit_trigger_counts_drafts :
    countSubmitted (updateAnswers twoPlayerRound1 "b" 1 draftBob) 1 = 0 ∧
    (submitAnswers (updateAnswers twoPlayerRound1 "b" 1 draftBob) "a" 1 emptyAnswers).2 =
      [Event.playerSubmitted "a" 1, Event.roundScored 1, Event.roomUpdate] ∧
    countSubmitted (submitAnswers (updateAnswers twoPlayerRound1 "b" 1 draftBob) "a" 1
      emptyAnswers).1 1 = 1 ∧
    twoPlayerRound1.players.length = 2 := by
  decide

/-! ### Claim C3: the validity conditions -/

theorem lowerChar_idem (n : Nat) : lowerChar (lowerChar n) = lowerChar n := by
  unfold lowerChar
  split_ifs <;> omega

theorem isLowerAlpha_lowerChar (n : Nat) : isLowerAlpha (lowerChar n) ↔ isAlpha n := by
  unfold isLowerAlpha isAlpha lowerChar
  split_ifs <;> omega

theorem upperChar_eq_iff (a b : Nat) : upperChar a = upperChar b ↔ lowerChar a = lowerChar b := by
  unfold upperChar lowerChar
  split_ifs <;> omega

theorem allLowerAlpha_lowerStr (l : List Nat) : allLowerAlpha (lowerStr l) ↔ allAlpha l := by
  unfold allLowerAlpha allAlpha lowerStr
  constructor
  · intro h c hc
    exact (isLowerAlpha_lowerChar c).1 (h (lowerChar c) (List.mem_map_of_mem _ hc))
  · intro h c hc
    obtain ⟨d, hd, rfl⟩ := List.mem_map.1 hc
    exact (isLowerAlpha_lowerChar d).2 (h d hd)

theorem repeatedCI_lowerStr (l : List Nat) : repeatedCI (lowerStr l) ↔ repeatedCI l := by
  cases l with
  | nil => simp [repeatedCI, lowerStr]
  | cons c rest =>
    unfold repeatedCI lowerStr
    simp only [List.map_cons, List.headD_cons, List.length_cons, List.length_map]
    constructor
    · rintro ⟨h2, hall⟩
      refine ⟨h2, ?_⟩
      intro d hd
      have hmem : lowerChar d ∈ lowerChar c :: rest.map lowerChar := by
        rcases List.mem_cons.1 hd with rfl | hd
        · exact List.mem_cons_self _ _
        · exact List.mem_cons_of_mem _ (List.mem_map_of_mem _ hd)
      have h := hall (lowerChar d) hmem
      rwa [lowerChar_idem, lowerChar_idem] at h
    · rintro ⟨h2, hall⟩
      refine ⟨h2, ?_⟩
      intro d hd
      rcases List.mem_cons.1 hd with rfl | hd
      · rfl
      · obtain ⟨e, he, rfl⟩ := List.mem_map.1 hd
        rw [lowerChar_idem, lowerChar_idem]
        exact hall e (List.mem_cons_of_mem _ he)

/-- The spec's validity conditions for one category value against a drawn
letter, exactly as §4.4 words them (minus the host-invalidation flag,
which is stated separately): non-empty after trimming, at least 3
characters, entirely ASCII alphabetic, not one character repeated across
the whole (case-insensitively first-character-equal) length, and a first
character matching the round's letter case-insensitively. -/
def specValid (letterCode : Nat) (raw : List Nat) : Prop :=
  trimList raw ≠ [] ∧ 3 ≤ (trimList raw).length ∧ allAlpha (trimList raw) ∧
    ¬ (∀ d ∈ trimList raw, lowerChar d = lowerChar ((trimList raw).headD 0)) ∧
    lowerChar ((trimList raw).headD 0) = lowerChar letterCode

instance (letterCode : Nat) (raw : List Nat) : Decidable (specValid letterCode raw) :=
  inferInstanceAs (Decidable (_ ∧ _ ∧ _ ∧ _ ∧ _))

/-- Claim C3 as amended.  A category value enters the scoring grouping
(its validation returns a normalized value) under the following exact
conditions.  In the `recomputeRoundScores` path, where the round letter
is passed lowercased: iff the host has not flagged the category invalid
and the five textual conditions of the spec hold.  In the initial
`scoreRound` path the host-invalid flag is not consulted at all, and the
value enters iff the five textual conditions hold. -/
theorem validChainRec_eq_score (L : Nat) (v : List Nat) :
    validChainRec (some (lowerChar L)) (lowerStr v) = validChainScore (some L) v := by
  rcases v with _ | ⟨c, rest⟩
  · rfl
  · have e2 : allLowerAlpha (lowerChar c :: List.map lowerChar rest) ↔ allAlpha (c :: rest) := by
      simpa [lowerStr] using allLowerAlpha_lowerStr (c :: rest)
    have e3 : repeatedCI (lowerChar c :: List.map lowerChar rest) ↔ repeatedCI (c :: rest) := by
      simpa [lowerStr] using repeatedCI_lowerStr (c :: rest)
    have e4 : (lowerChar c = lowerChar L) ↔ (upperChar c = upperChar L) :=
      (upperChar_eq_iff c L).symm
    simp only [lowerStr, List.map_cons, validChainRec, validChainScore, List.length_cons,
      List.length_map]
    split_ifs <;> first | rfl | tauto

theorem validity_conditions :
    (∀ L inval raw, (validValueRec (some (lowerChar L)) inval raw).isSome = true ↔
      (inval = false ∧ specValid L raw)) ∧
    (∀ L raw, (validValueScore (some L) raw).isSome = true ↔ specValid L raw) := by
  have hscore : ∀ L raw, (validValueScore (some L) raw).isSome = true ↔ specValid L raw := by
    intro L raw
    unfold validValueScore specValid
    rcases htr : trimList raw with _ | ⟨c, rest⟩
    · simp [validChainScore]
    · simp only [validChainScore, ne_eq, reduceCtorEq, not_false_eq_true, true_and]
      by_cases h1 : (c :: rest).length < 3
      · rw [if_pos h1]
        simp only [Option.isSome_none, Bool.false_eq_true, false_iff]
        rintro ⟨h3len, -⟩
        omega
      · rw [if_neg h1]
        have hlen3 : 3 ≤ (c :: rest).length := not_lt.1 h1
        by_cases h2 : allAlpha (c :: rest)
        · rw [if_neg (fun hc => hc h2)]
          by_cases h3 : repeatedCI (c :: rest)
          · rw [if_pos h3]
            simp only [Option.isSome_none, Bool.false_eq_true, false_iff]
            rintro ⟨-, -, hrep, -⟩
            exact hrep h3.2
          · rw [if_neg h3]
            by_cases h4 : upperChar c = upperChar L
            · rw [if_pos h4]
              simp only [Option.isSome_some, true_iff]
              refine ⟨hlen3, h2, ?_, (upperChar_eq_iff c L).1 h4⟩
              intro hall
              exact h3 ⟨by omega, hall⟩
            · rw [if_neg h4]
              simp only [Option.isSome_none, Bool.false_eq_true, false_iff]
              rintro ⟨-, -, -, hlet⟩
              exact h4 ((upperChar_eq_iff c L).2 hlet)
        · rw [if_pos h2]
          simp only [Option.isSome_none, Bool.false_eq_true, false_iff]
          rintro ⟨-, ha, -⟩
          exact h2 ha
  refine ⟨?_, hscore⟩
  intro L inval raw
  cases inval with
  | true => simp [validValueRec]
  | false =>
    have hrec : validValueRec (some (lowerChar L)) false raw = validValueScore (some L) raw := by
      unfold validValueRec validValueScore
      simp only [Bool.false_eq_true, if_false]
      exact validChainRec_eq_score L (trimList raw)
    rw [hrec]
    simp only [true_and]
    exact hscore L raw

/-- Witness for C3's amended claim: the spec's own test vector `"xxxx"`
with letter `X` is rejected by the `scoreRound` validation (the
repeated-character rule), via the proved equivalence. -/
theorem validity_conditions_witness :
    (validValueScore (some 88) [120, 120, 120, 120]).isSome = false := by
  cases hval : (validValueScore (some 88) [120, 120, 120, 120]).isSome with
  | false => rfl
  | true => exact absurd ((validity_conditions.2 88 [120, 120, 120, 120]).1 hval) (by decide)

/-- Paula's entry: `Bob` in the Name category, nothing elsewhere. -/
def flaggedAnswers : Cat → List Nat := fun c =>
  match c with
  | Cat.Name => [66, 111, 98]
  | _ => []

/-- The host has flagged Paula's Name answer invalid. -/
def invalidNameFlag : Cat → Bool := fun c =>
  match c with
  | Cat.Name => true
  | _ => false

/-- A one-player round-1 room whose only answer is flagged invalid but
whose round is not yet scored. -/
def flaggedState : RoomState :=
  ⟨"R", "", "p1", [⟨"p1", "Paula", 0⟩], 1, [some 66],
    [(1, ⟨false, [("p1", ⟨flaggedAnswers, true, invalidNameFlag⟩)]⟩)]⟩

/-- Counterexample to claim C3 as stated.  Paula's Name answer `Bob` is
flagged invalid by the host, yet `scoreRound` (whose validation never
reads the `invalid` flags) still groups it and awards 10 points — the
claimed "flagged values contribute zero points" fails on the
`scoreRound` path the claim cites. -/
theorem validity_invalidflag_cex :
    (entryOf (⟨false, [("p1", ⟨flaggedAnswers, true, invalidNameFlag⟩)]⟩ : RoundData).entries
      "p1").invalid Cat.Name = true ∧
    (scoreRound flaggedState 1).1.players.map (fun p => p.score) = [10] := by
  decide

/-! ### The grouping characterization

The `catMap` grouping of both scoring paths is characterized per player:
a player's points in one category depend only on whether their own value
validates and on how many players share its normalized text. -/

/-- The socket-id list stored in a `catMap` under a given normalized key
(the empty list when the key is absent). -/
def grpOf : List (List Nat × List String) → List Nat → List String
  | [], _ => []
  | g :: rest, s => if g.1 = s then g.2 else grpOf rest s

/-- The socket ids whose normalized value equals a given key, in player
order. -/
def filterVal : List (String × Option (List Nat)) → List Nat → List String
  | [], _ => []
  | p :: rest, s => if p.2 = some s then p.1 :: filterVal rest s else filterVal rest s

/-- The normalized keys of a `catMap`. -/
def keysOf (m : List (List Nat × List String)) : List (List Nat) :=
  m.map (fun g => g.1)

theorem grpOf_addToGroup (m : List (List Nat × List String)) (k : List Nat) (v : String)
    (s : List Nat) :
    grpOf (addToGroup m k v) s = if k = s then grpOf m s ++ [v] else grpOf m s := by
  induction m with
  | nil =>
    by_cases h : k = s <;> simp [addToGroup, grpOf, h]
  | cons g rest ih =>
    by_cases hg : g.1 = k
    · by_cases hs : k = s
      · have hgs : g.1 = s := hg.trans hs
        simp [addToGroup, hg, grpOf, hgs, hs]
      · have hgs : g.1 ≠ s := fun h => hs (hg.symm.trans h)
        simp [addToGroup, hg, grpOf, hgs, hs]
    · by_cases hgs : g.1 = s
      · have hks : k ≠ s := fun h => hg (hgs.trans h.symm)
        simp [addToGroup, hg, grpOf, hgs, hks, Ne.symm hks]
      · simp [addToGroup, hg, grpOf, hgs, ih]

theorem grpOf_foldl (norms : List (String × Option (List Nat)))
    (m : List (List Nat × List String)) (s : List Nat) :
    grpOf (norms.foldl (fun m p =>
      match p.2 with
      | some t => addToGroup m t p.1
      | none => m) m) s = grpOf m s ++ filterVal norms s := by
  induction norms generalizing m with
  | nil => simp [filterVal]
  | cons p rest ih =>
    cases hp : p.2 with
    | none => simp [List.foldl_cons, hp, ih, filterVal]
    | some t =>
      simp only [List.foldl_cons, hp]
      rw [ih, grpOf_addToGroup]
      by_cases hts : t = s
      · subst hts
        simp [filterVal, hp]
      · simp [filterVal, hp, hts]

theorem grpOf_buildGroups (norms : List (String × Option (List Nat))) (s : List Nat) :
    grpOf (buildGroups norms) s = filterVal norms s := by
  have h := grpOf_foldl norms [] s
  simpa [buildGroups, grpOf] using h

theorem keys_addToGroup (m : List (List Nat × List String)) (k : List Nat) (v : String) :
    keysOf (addToGroup m k v) = if k ∈ keysOf m then keysOf m else keysOf m ++ [k] := by
  induction m with
  | nil => simp [addToGroup, keysOf]
  | cons g rest ih =>
    by_cases hg : g.1 = k
    · rw [show addToGroup (g :: rest) k v = (g.1, g.2 ++ [v]) :: rest from by
        simp [addToGroup, hg]]
      have hk : k ∈ keysOf (g :: rest) := by
        simp only [keysOf, List.map_cons]
        rw [← hg]
        exact List.mem_cons_self _ _
      rw [if_pos hk]
      simp [keysOf]
    · rw [show addToGroup (g :: rest) k v = g :: addToGroup rest k v from by
        simp [addToGroup, hg]]
      have hmemiff : (k ∈ keysOf (g :: rest)) ↔ (k ∈ keysOf rest) := by
        simp only [keysOf, List.map_cons, List.mem_cons]
        constructor
        · rintro (h | h)
          · exact absurd h.symm hg
          · exact h
        · exact Or.inr
      have ih' : List.map (fun g => g.1) (addToGroup rest k v) =
          if k ∈ List.map (fun g => g.1) rest then List.map (fun g => g.1) rest
          else List.map (fun g => g.1) rest ++ [k] := by
        simpa [keysOf] using ih
      by_cases hk : k ∈ keysOf rest
      · rw [if_pos (hmemiff.2 hk)]
        simp only [keysOf, List.map_cons]
        rw [ih', if_pos (by simpa [keysOf] using hk)]
      · rw [if_neg (fun hc => hk (hmemiff.1 hc))]
        simp only [keysOf, List.map_cons]
        rw [ih', if_neg (by simpa [keysOf] using hk)]
        simp

theorem keysNodup_foldl (norms : List (String × Option (List Nat)))
    (m : List (List Nat × List String)) (h : (keysOf m).Nodup) :
    (keysOf (norms.foldl (fun m p =>
      match p.2 with
      | some t => addToGroup m t p.1
      | none => m) m)).Nodup := by
  induction norms generalizing m with
  | nil => exact h
  | cons p rest ih =>
    cases hp : p.2 with
    | none => simpa [List.foldl_cons, hp] using ih m h
    | some t =>
      simp only [List.foldl_cons, hp]
      apply ih
      rw [keys_addToGroup]
      split_ifs with hmem
      · exact h
      · exact h.append (List.nodup_singleton _) (by
          intro a ha hb
          simp at hb
          rw [hb] at ha
          exact hmem ha)

theorem keysNodup_buildGroups (norms : List (String × Option (List Nat))) :
    (keysOf (buildGroups norms)).Nodup :=
  keysNodup_foldl norms [] (by simp [keysOf])

theorem grpOf_of_mem (m : List (List Nat × List String)) (hnd : (keysOf m).Nodup)
    (k : List Nat) (l : List String) (hmem : (k, l) ∈ m) : grpOf m k = l := by
  induction m with
  | nil => cases hmem
  | cons g rest ih =>
    simp only [keysOf, List.map_cons] at hnd
    rcases List.mem_cons.1 hmem with heq | hmem'
    · rw [← heq]
      simp [grpOf]
    · have hk : k ∈ keysOf rest := List.mem_map_of_mem _ hmem'
      have hg : g.1 ≠ k := by
        intro h
        exact (List.nodup_cons.1 hnd).1 (by simpa [keysOf, ← h] using hk)
      simp only [grpOf, hg, if_false]
      exact ih (List.nodup_cons.1 hnd).2 hmem'

theorem grpOf_mem_of_ne_nil (m : List (List Nat × List String)) (s : List Nat)
    (h : grpOf m s ≠ []) : (s, grpOf m s) ∈ m := by
  induction m with
  | nil => simp [grpOf] at h
  | cons g rest ih =>
    by_cases hg : g.1 = s
    · have hgpair : g = (s, g.2) := by rw [← hg]
      simp only [grpOf, hg, if_pos]
      rw [hgpair]
      exact List.mem_cons_self _ _
    · simp only [grpOf, hg, if_false] at h ⊢
      exact List.mem_cons_of_mem _ (ih h)

theorem countOcc_filterVal_not_mem (norms : List (String × Option (List Nat))) (s : List Nat)
    (sid : String) (h : (sid, some s) ∉ norms) : countOcc (filterVal norms s) sid = 0 := by
  induction norms with
  | nil => rfl
  | cons p rest ih =>
    have hrest : (sid, some s) ∉ rest := fun hc => h (List.mem_cons_of_mem _ hc)
    by_cases hp : p.2 = some s
    · have hsid : p.1 ≠ sid := by
        intro he
        apply h
        have : p = (sid, some s) := by
          rw [← he, ← hp]
        rw [← this]
        exact List.mem_cons_self _ _
      simp [filterVal, hp, countOcc, hsid, ih hrest]
    · simp [filterVal, hp, ih hrest]

theorem countOcc_filterVal_mem (norms : List (String × Option (List Nat))) (s : List Nat)
    (sid : String) (hnd : (norms.map (fun p => p.1)).Nodup) (hmem : (sid, some s) ∈ norms) :
    countOcc (filterVal norms s) sid = 1 := by
  induction norms with
  | nil => cases hmem
  | cons p rest ih =>
    simp only [List.map_cons] at hnd
    rcases List.mem_cons.1 hmem with heq | hmem'
    · have hsid : sid ∉ rest.map (fun p => p.1) := by
        have h1 := (List.nodup_cons.1 hnd).1
        rw [← heq] at h1
        exact h1
      have hrest : (sid, some s) ∉ rest := fun hc => hsid (List.mem_map_of_mem _ hc)
      rw [← heq]
      simp [filterVal, countOcc, countOcc_filterVal_not_mem rest s sid hrest]
    · have hp1 : p.1 ≠ sid := by
        intro he
        exact (List.nodup_cons.1 hnd).1 (he ▸ List.mem_map_of_mem (fun p => p.1) hmem')
      by_cases hp : p.2 = some s
      · simp [filterVal, hp, countOcc, hp1, ih (List.nodup_cons.1 hnd).2 hmem']
      · simp [filterVal, hp, ih (List.nodup_cons.1 hnd).2 hmem']

theorem sum_map_eq_single (groups : List (List Nat × List String))
    (f : List Nat × List String → Nat) (s : List Nat) (l : List String)
    (hnd : (keysOf groups).Nodup) (hmem : (s, l) ∈ groups)
    (hzero : ∀ g ∈ groups, g.1 ≠ s → f g = 0) :
    (groups.map f).sum = f (s, l) := by
  induction groups with
  | nil => cases hmem
  | cons g rest ih =>
    simp only [keysOf, List.map_cons] at hnd
    rcases List.mem_cons.1 hmem with heq | hmem'
    · have hs : s ∉ keysOf rest := by
        have h1 := (List.nodup_cons.1 hnd).1
        rw [← heq] at h1
        exact h1
      have hz : ∀ x ∈ rest.map f, x = 0 := by
        intro x hx
        obtain ⟨g', hg', rfl⟩ := List.mem_map.1 hx
        apply hzero g' (List.mem_cons_of_mem _ hg')
        intro he
        exact hs (he ▸ List.mem_map_of_mem _ hg')
      rw [List.map_cons, List.sum_cons, List.sum_eq_zero hz, ← heq]
      omega
    · have hg1 : g.1 ≠ s := by
        intro he
        exact (List.nodup_cons.1 hnd).1 (he ▸ List.mem_map_of_mem _ hmem')
      rw [List.map_cons, List.sum_cons, hzero g (List.mem_cons_self _ _) hg1,
        ih (List.nodup_cons.1 hnd).2 hmem'
          (fun g' hg' => hzero g' (List.mem_cons_of_mem _ hg'))]
      omega

/-! ### Claim C2: uniqueness-bonus scoring -/

theorem validChainScore_ne_nil (letter : Option Nat) (v s : List Nat)
    (h : validChainScore letter v = some s) : s ≠ [] := by
  rcases v with _ | ⟨c, rest⟩
  · cases h
  · rcases letter with _ | L
    all_goals
      simp only [validChainScore] at h
      split_ifs at h <;>
        first
          | (injection h with h'
             rw [← h']
             exact List.cons_ne_nil _ _)
          | cases h

theorem catNormsScore_keys (players : List Player) (entries : List (String × PlayerEntry))
    (letter : Option Nat) (cat : Cat) :
    (catNormsScore players entries letter cat).map (fun p => p.1) =
      players.map (fun p => p.socketId) := by
  unfold catNormsScore
  rw [List.map_map]
  rfl

theorem catNormsScore_val (players : List Player) (entries : List (String × PlayerEntry))
    (letter : Option Nat) (cat : Cat) (sid : String) (v : Option (List Nat))
    (hv : (sid, v) ∈ catNormsScore players entries letter cat) :
    v = validValueScore letter ((entryOf entries sid).answers cat) := by
  unfold catNormsScore at hv
  obtain ⟨pl, hpl, heq⟩ := List.mem_map.1 hv
  rw [Prod.mk.injEq] at heq
  obtain ⟨h1, h2⟩ := heq
  rw [← h2, h1]

theorem catNormsScore_mem (players : List Player) (entries : List (String × PlayerEntry))
    (letter : Option Nat) (cat : Cat) (p : Player) (hp : p ∈ players) :
    (p.socketId, validValueScore letter ((entryOf entries p.socketId).answers cat)) ∈
      catNormsScore players entries letter cat :=
  List.mem_map_of_mem _ hp

/-- The number of players in the round who produced a given normalized
valid value for a category — the spec's "how many players produced this
identical normalized answer". -/
def sharersScore (players : List Player) (entries : List (String × PlayerEntry))
    (letter : Option Nat) (cat : Cat) (s : List Nat) : Nat :=
  match players with
  | [] => 0
  | p :: rest =>
    (if validValueScore letter ((entryOf entries p.socketId).answers cat) = some s
      then 1 else 0) + sharersScore rest entries letter cat s

theorem sharersScore_eq_filterVal (players : List Player) (entries : List (String × PlayerEntry))
    (letter : Option Nat) (cat : Cat) (s : List Nat) :
    sharersScore players entries letter cat s =
      (filterVal (catNormsScore players entries letter cat) s).length := by
  induction players with
  | nil => rfl
  | cons p rest ih =>
    by_cases hv : validValueScore letter ((entryOf entries p.socketId).answers cat) = some s
    · simp [sharersScore, catNormsScore, filterVal, hv, ih, Nat.add_comm]
    · simp [sharersScore, catNormsScore, filterVal, hv, ih]

theorem catPoints_score_none (players : List Player) (entries : List (String × PlayerEntry))
    (letter : Option Nat) (cat : Cat) (sid : String)
    (hg : validValueScore letter ((entryOf entries sid).answers cat) = none) :
    groupPoints true (buildGroups (catNormsScore players entries letter cat)) sid = 0 := by
  apply List.sum_eq_zero
  intro x hx
  obtain ⟨g, hgmem, rfl⟩ := List.mem_map.1 hx
  have hfv : g.2 = filterVal (catNormsScore players entries letter cat) g.1 := by
    rw [← grpOf_of_mem _ (keysNodup_buildGroups _) g.1 g.2 hgmem, grpOf_buildGroups]
  have hcnt : countOcc g.2 sid = 0 := by
    rw [hfv]
    apply countOcc_filterVal_not_mem
    intro hc
    have hvv := catNormsScore_val players entries letter cat sid (some g.1) hc
    rw [hg] at hvv
    cases hvv
  split_ifs <;> simp [hcnt]

theorem catPoints_score_some (players : List Player) (entries : List (String × PlayerEntry))
    (letter : Option Nat) (cat : Cat) (sid : String) (s : List Nat)
    (hnd : (players.map (fun p => p.socketId)).Nodup)
    (hmem : ∃ p ∈ players, p.socketId = sid)
    (hg : validValueScore letter ((entryOf entries sid).answers cat) = some s) :
    groupPoints true (buildGroups (catNormsScore players entries letter cat)) sid =
      if sharersScore players entries letter cat s = 1 then 10 else 5 := by
  have hndn : ((catNormsScore players entries letter cat).map (fun p => p.1)).Nodup := by
    rw [catNormsScore_keys]
    exact hnd
  have hsmem : (sid, some s) ∈ catNormsScore players entries letter cat := by
    obtain ⟨p, hp, hpsid⟩ := hmem
    have h := catNormsScore_mem players entries letter cat p hp
    rw [hpsid, hg] at h
    exact h
  have hsne : s ≠ [] := validChainScore_ne_nil letter (trimList ((entryOf entries sid).answers cat)) s hg
  have hcnt1 : countOcc (filterVal (catNormsScore players entries letter cat) s) sid = 1 :=
    countOcc_filterVal_mem _ s sid hndn hsmem
  have hfvne : filterVal (catNormsScore players entries letter cat) s ≠ [] := by
    intro hc
    rw [hc] at hcnt1
    cases hcnt1
  have hgrpmem : (s, filterVal (catNormsScore players entries letter cat) s) ∈
      buildGroups (catNormsScore players entries letter cat) := by
    have h := grpOf_mem_of_ne_nil (buildGroups (catNormsScore players entries letter cat)) s
      (by rw [grpOf_buildGroups]; exact hfvne)
    rwa [grpOf_buildGroups] at h
  unfold groupPoints
  rw [sum_map_eq_single (buildGroups (catNormsScore players entries letter cat)) _ s
    (filterVal (catNormsScore players entries letter cat) s)
    (keysNodup_buildGroups _) hgrpmem ?hzero]
  case hzero =>
    intro g hgmem hg1
    have hfv : g.2 = filterVal (catNormsScore players entries letter cat) g.1 := by
      rw [← grpOf_of_mem _ (keysNodup_buildGroups _) g.1 g.2 hgmem, grpOf_buildGroups]
    have hcnt : countOcc g.2 sid = 0 := by
      rw [hfv]
      apply countOcc_filterVal_not_mem
      intro hc
      have hvv := catNormsScore_val players entries letter cat sid (some g.1) hc
      rw [hg] at hvv
      exact hg1 (Option.some.inj hvv)
    split_ifs <;> simp [hcnt]
  rw [if_neg (fun hc => hsne hc.2), hcnt1, Nat.one_mul, sharersScore_eq_filterVal]

theorem roundScoresScore_char (players : List Player) (entries : List (String × PlayerEntry))
    (letter : Option Nat) (sid : String)
    (hnd : (players.map (fun p => p.socketId)).Nodup)
    (hmem : ∃ p ∈ players, p.socketId = sid) :
    roundScoresScore players entries letter sid =
      (categories.map (fun cat =>
        match validValueScore letter ((entryOf entries sid).answers cat) with
        | none => 0
        | some s => if sharersScore players entries letter cat s = 1 then 10 else 5)).sum := by
  have hcat : ∀ cat, groupPoints true (buildGroups (catNormsScore players entries letter cat)) sid =
      (match validValueScore letter ((entryOf entries sid).answers cat) with
       | none => 0
       | some s => if sharersScore players entries letter cat s = 1 then 10 else 5) := by
    intro cat
    cases hval : validValueScore letter ((entryOf entries sid).answers cat) with
    | none => exact catPoints_score_none players entries letter cat sid hval
    | some s => exact catPoints_score_some players entries letter cat sid s hnd hmem hval
  unfold roundScoresScore
  simp only [categories, List.map_cons, List.map_nil]
  rw [hcat Cat.Name, hcat Cat.City, hcat Cat.Thing, hcat Cat.Animal]

/-- Alice's submission of the spec's end-to-end example:
`{Name:"Bob", City:"Berlin", Thing:"Ball", Animal:"Bear"}`. -/
def ansAlice : Cat → List Nat := fun c =>
  match c with
  | Cat.Name => [66, 111, 98]
  | Cat.City => [66, 101, 114, 108, 105, 110]
  | Cat.Thing => [66, 97, 108, 108]
  | Cat.Animal => [66, 101, 97, 114]

/-- Bob's submission of the spec's end-to-end example:
`{Name:"Ben", City:"Berlin", Thing:"Ball", Animal:"Bat"}`. -/
def ansBob : Cat → List Nat := fun c =>
  match c with
  | Cat.Name => [66, 101, 110]
  | Cat.City => [66, 101, 114, 108, 105, 110]
  | Cat.Thing => [66, 97, 108, 108]
  | Cat.Animal => [66, 97, 116]

/-- No category flagged invalid. -/
def noFlags : Cat → Bool := fun _ => false

/-- The round-1 answer entries of the example room. -/
def exampleEntries : List (String × PlayerEntry) :=
  [("alice", ⟨ansAlice, true, noFlags⟩), ("bob", ⟨ansBob, true, noFlags⟩)]

/-- Room `ABC1` of the spec's end-to-end example: Alice (host) and Bob,
round 1 with letter `B`, both submissions in, round not yet scored. -/
def exampleState : RoomState :=
  ⟨"ABC1", "", "alice", [⟨"alice", "Alice", 0⟩, ⟨"bob", "Bob", 0⟩], 1, [some 66],
    [(1, ⟨false, exampleEntries⟩)]⟩

/-- Counterexample to claim C2 as stated.  On the spec's own end-to-end
example (City and Thing duplicated at 5 points each, Name and Animal
unique at 10 points each) each player's round total is
`10 + 5 + 5 + 10 = 30`, not the claimed 20. -/
theorem scoring_twenty_cex :
    (scoreRound exampleState 1).1.players.map (fun p => p.score) = [30, 30] ∧
    (scoreRound exampleState 1).1.players.map (fun p => p.score) ≠ [20, 20] := by
  decide

/-- Claim C2 as amended.  Scoring groups valid answers per category by
their normalized (trimmed, lowercased) text; a player whose normalized
answer is produced by exactly one player earns 10 points for that
category, and a player sharing an identical normalized answer with at
least one other player earns 5; a player's round score is the sum over
the four categories.  In particular, in the end-to-end example with City
and Thing duplicated and Name and Animal unique, both players score
exactly 30 (10+5+5+10) for the round, and the totals become
`{Alice: 30, Bob: 30}`. -/
theorem scoring_unique_bonus :
    (∀ (players : List Player) (entries : List (String × PlayerEntry)) (letter : Option Nat)
      (p : Player), (players.map (fun q => q.socketId)).Nodup → p ∈ players →
      roundScoresScore players entries letter p.socketId =
        (categories.map (fun cat =>
          match validValueScore letter ((entryOf entries p.socketId).answers cat) with
          | none => 0
          | some s =>
            if sharersScore players entries letter cat s = 1 then 10 else 5)).sum) ∧
    (scoreRound exampleState 1).1.players.map (fun p => p.score) = [30, 30] := by
  constructor
  · intro players entries letter p hnd hp
    exact roundScoresScore_char players entries letter p.socketId hnd ⟨p, hp, rfl⟩
  · decide

/-- Witness for C2's amended claim: the characterization applied to the
example room computes Alice's round score 30. -/
theorem scoring_unique_bonus_witness :
    roundScoresScore [⟨"alice", "Alice", 0⟩, ⟨"bob", "Bob", 0⟩] exampleEntries (some 66)
      "alice" = 30 :=
  (scoring_unique_bonus.1 [⟨"alice", "Alice", 0⟩, ⟨"bob", "Bob", 0⟩] exampleEntries (some 66)
    ⟨"alice", "Alice", 0⟩ (by decide) (by decide)).trans (by decide)

/-! ### Claim C5: invalidation and recompute -/

theorem findScore_map_score (players : List Player) (g : String → Nat) (sid : String) :
    findScore (players.map (fun p => { p with score := g p.socketId })) sid =
      (findScore players sid).map (fun _ => g sid) := by
  induction players with
  | nil => rfl
  | cons p rest ih =>
    by_cases hp : p.socketId = sid
    · simp [findScore, hp]
    · simp [findScore, hp, ih]

theorem map_congr_mem {α β : Type} (l : List α) (f g : α → β)
    (h : ∀ a ∈ l, f a = g a) : l.map f = l.map g := by
  induction l with
  | nil => rfl
  | cons x rest ih =>
    simp only [List.map_cons]
    rw [h x (List.mem_cons_self _ _), ih (fun a ha => h a (List.mem_cons_of_mem _ ha))]

theorem setRound_setRound (l : List (Nat × RoundData)) (r : Nat) (a b : RoundData) :
    setRound (setRound l r a) r b = setRound l r b := by
  induction l with
  | nil => simp [setRound]
  | cons p rest ih =>
    by_cases hp : p.1 = r
    · simp [setRound, hp]
    · simp [setRound, hp, ih]

theorem setEntry_setEntry (l : List (String × PlayerEntry)) (k : String) (a b : PlayerEntry) :
    setEntry (setEntry l k a) k b = setEntry l k b := by
  induction l with
  | nil => simp [setEntry]
  | cons e rest ih =>
    by_cases hp : e.1 = k
    · simp [setEntry, hp]
    · simp [setEntry, hp, ih]

theorem setEntry_self (l : List (String × PlayerEntry)) (k : String) (v : PlayerEntry)
    (h : lookupEntry l k = some v) : setEntry l k v = l := by
  induction l with
  | nil => cases h
  | cons e rest ih =>
    by_cases hp : e.1 = k
    · have h2 : e.2 = v := by
        have h' := h
        simp only [lookupEntry, hp, if_pos] at h'
        exact Option.some.inj h'
      have hpair : (k, v) = e := by rw [← hp, ← h2]
      simp [setEntry, hp, hpair]
    · have h' : lookupEntry rest k = some v := by
        have hh := h
        simp only [lookupEntry, hp, if_neg, if_false] at hh
        exact hh
      simp [setEntry, hp, ih h']

theorem catNormsRec_val (players : List Player) (entries : List (String × PlayerEntry))
    (letter : Option Nat) (cat : Cat) (sid : String) (v : Option (List Nat))
    (hv : (sid, v) ∈ catNormsRec players entries letter cat) :
    v = validValueRec letter ((entryOf entries sid).invalid cat)
      ((entryOf entries sid).answers cat) := by
  unfold catNormsRec at hv
  obtain ⟨pl, hpl, heq⟩ := List.mem_map.1 hv
  rw [Prod.mk.injEq] at heq
  obtain ⟨h1, h2⟩ := heq
  rw [← h2, h1]

theorem catPoints_rec_none (players : List Player) (entries : List (String × PlayerEntry))
    (letter : Option Nat) (cat : Cat) (sid : String)
    (hg : validValueRec letter ((entryOf entries sid).invalid cat)
      ((entryOf entries sid).answers cat) = none) :
    groupPoints false (buildGroups (catNormsRec players entries letter cat)) sid = 0 := by
  apply List.sum_eq_zero
  intro x hx
  obtain ⟨g, hgmem, rfl⟩ := List.mem_map.1 hx
  have hfv : g.2 = filterVal (catNormsRec players entries letter cat) g.1 := by
    rw [← grpOf_of_mem _ (keysNodup_buildGroups _) g.1 g.2 hgmem, grpOf_buildGroups]
  have hcnt : countOcc g.2 sid = 0 := by
    rw [hfv]
    apply countOcc_filterVal_not_mem
    intro hc
    have hvv := catNormsRec_val players entries letter cat sid (some g.1) hc
    rw [hg] at hvv
    cases hvv
  split_ifs <;> simp [hcnt]

theorem entryOf_setEntry_self (entries : List (String × PlayerEntry)) (sid : String)
    (ent : PlayerEntry) : entryOf (setEntry entries sid ent) sid = ent := by
  unfold entryOf
  rw [lookupEntry_setEntry_self]
  rfl

theorem entryOf_setEntry_ne (entries : List (String × PlayerEntry)) (sid sid' : String)
    (ent : PlayerEntry) (h : sid' ≠ sid) :
    entryOf (setEntry entries sid ent) sid' = entryOf entries sid' := by
  unfold entryOf
  rw [lookupEntry_setEntry_ne _ _ _ _ h]

theorem catNormsRec_setEntry_invalid (players : List Player)
    (entries : List (String × PlayerEntry)) (letter : Option Nat) (target : String)
    (cat0 cat : Cat) (ent : PlayerEntry) (b : Bool)
    (hent : lookupEntry entries target = some ent) (hne : cat ≠ cat0) :
    catNormsRec players (setEntry entries target
        { ent with invalid := fun c => if c = cat0 then b else ent.invalid c }) letter cat =
      catNormsRec players entries letter cat := by
  unfold catNormsRec
  apply map_congr_mem
  intro pl _
  by_cases hpl : pl.socketId = target
  · rw [hpl, entryOf_setEntry_self]
    have hto : entryOf entries target = ent := by
      unfold entryOf
      rw [hent]
      rfl
    rw [hto]
    simp [hne]
  · rw [entryOf_setEntry_ne _ _ _ _ hpl]

theorem roundScoresRec_invalidate_le (players : List Player)
    (entries : List (String × PlayerEntry)) (letter : Option Nat) (target : String)
    (cat0 : Cat) (ent : PlayerEntry) (hent : lookupEntry entries target = some ent) :
    roundScoresRec players (setEntry entries target
        { ent with invalid := fun c => if c = cat0 then true else ent.invalid c })
      letter target ≤
      roundScoresRec players entries letter target := by
  unfold roundScoresRec
  apply List.sum_le_sum
  intro cat _
  by_cases hc : cat = cat0
  · subst hc
    have hzero : groupPoints false (buildGroups (catNormsRec players (setEntry entries target
        { ent with invalid := fun c => if c = cat then true else ent.invalid c }) letter cat))
        target = 0 := by
      apply catPoints_rec_none
      rw [entryOf_setEntry_self]
      simp [validValueRec]
    rw [hzero]
    exact Nat.zero_le _
  · rw [catNormsRec_setEntry_invalid players entries letter target cat0 cat ent true hent hc]

theorem recomputeTotals_setRound_le (players : List Player) (used : List (Option Nat))
    (ledger : List (Nat × RoundData)) (r : Nat) (rd rd' : RoundData) (sid : String)
    (hle : roundScoresRec players rd'.entries (letterOfRec used r) sid ≤
      roundScoresRec players rd.entries (letterOfRec used r) sid)
    (hrd : lookupRound ledger r = some rd) :
    recomputeTotals players used (setRound ledger r rd') sid ≤
      recomputeTotals players used ledger sid := by
  unfold recomputeTotals
  induction ledger with
  | nil => cases hrd
  | cons p rest ih =>
    by_cases hp : p.1 = r
    · rw [show setRound (p :: rest) r rd' = (r, rd') :: rest from by simp [setRound, hp]]
      have hp2 : p.2 = rd := by
        have h' := hrd
        simp only [lookupRound, hp, if_pos] at h'
        exact Option.some.inj h'
      simp only [List.map_cons, List.sum_cons]
      rw [hp, hp2]
      omega
    · rw [show setRound (p :: rest) r rd' = p :: setRound rest r rd' from by simp [setRound, hp]]
      have hrd' : lookupRound rest r = some rd := by
        have h' := hrd
        simp only [lookupRound, hp, if_neg, if_false] at h'
        exact h'
      have hih := ih hrd'
      simp only [List.map_cons, List.sum_cons]
      omega

theorem recomputeTotals_setRound_eq (players : List Player) (used : List (Option Nat))
    (ledger : List (Nat × RoundData)) (r : Nat) (rd rd' : RoundData) (sid : String)
    (heq : roundScoresRec players rd'.entries (letterOfRec used r) sid =
      roundScoresRec players rd.entries (letterOfRec used r) sid)
    (hrd : lookupRound ledger r = some rd) :
    recomputeTotals players used (setRound ledger r rd') sid =
      recomputeTotals players used ledger sid := by
  unfold recomputeTotals
  induction ledger with
  | nil => cases hrd
  | cons p rest ih =>
    by_cases hp : p.1 = r
    · rw [show setRound (p :: rest) r rd' = (r, rd') :: rest from by simp [setRound, hp]]
      have hp2 : p.2 = rd := by
        have h' := hrd
        simp only [lookupRound, hp, if_pos] at h'
        exact Option.some.inj h'
      simp only [List.map_cons, List.sum_cons]
      rw [hp, hp2]
      omega
    · rw [show setRound (p :: rest) r rd' = p :: setRound rest r rd' from by simp [setRound, hp]]
      have hrd' : lookupRound rest r = some rd := by
        have h' := hrd
        simp only [lookupRound, hp, if_neg, if_false] at h'
        exact h'
      have hih := ih hrd'
      simp only [List.map_cons, List.sum_cons]
      omega

theorem catNormsRec_map_score (players : List Player) (g : String → Nat)
    (entries : List (String × PlayerEntry)) (letter : Option Nat) (cat : Cat) :
    catNormsRec (players.map (fun p => { p with score := g p.socketId })) entries letter cat =
      catNormsRec players entries letter cat := by
  unfold catNormsRec
  rw [List.map_map]
  rfl

theorem recomputeTotals_map_score (players : List Player) (g : String → Nat)
    (used : List (Option Nat)) (ledger : List (Nat × RoundData)) (sid : String) :
    recomputeTotals (players.map (fun p => { p with score := g p.socketId })) used ledger sid =
      recomputeTotals players used ledger sid := by
  unfold recomputeTotals roundScoresRec
  simp only [catNormsRec_map_score]

theorem invalidateAnswer_ok (st : RoomState) (caller : String) (r : Nat) (target : String)
    (cat : Cat) (inv : Bool) (rd : RoundData) (ent : PlayerEntry)
    (hhost : st.hostSocket = caller) (hrd : lookupRound st.ledger r = some rd)
    (hent : lookupEntry rd.entries target = some ent) :
    invalidateAnswer st caller r target cat inv =
      Except.ok (recomputeRoundScores
        { st with ledger := (setRound st.ledger r
          { rd with entries := (setEntry rd.entries target
            { ent with invalid := fun c => if c = cat then inv else ent.invalid c }) }) } r) := by
  unfold invalidateAnswer
  simp [hhost, hrd, hent]

/-- Alice's round-1 submission for the mid-game room: `Bob` for Name. -/
def ans1Alice : Cat → List Nat := fun c =>
  match c with
  | Cat.Name => [66, 111, 98]
  | _ => []

/-- Bob's round-1 submission for the mid-game room: `Ben` for Name. -/
def ans1Bob : Cat → List Nat := fun c =>
  match c with
  | Cat.Name => [66, 101, 110]
  | _ => []

/-- Alice's round-2 submission (letter `C`), four valid unique answers. -/
def ans2Alice : Cat → List Nat := fun c =>
  match c with
  | Cat.Name => [67, 97, 116]
  | Cat.City => [67, 97, 108, 105]
  | Cat.Thing => [67, 117, 112]
  | Cat.Animal => [67, 111, 119]

/-- A reachable mid-game room: round 1 (letter `B`) was scored normally
(both players hold 10 points), round 2 (letter `C`) is open and Alice has
already submitted four valid unique answers that are not yet scored. -/
def midRoundState : RoomState :=
  ⟨"R", "", "b", [⟨"a", "Alice", 10⟩, ⟨"b", "Bob", 10⟩], 2, [some 66, some 67],
    [(1, ⟨true, [("a", ⟨ans1Alice, true, noFlags⟩), ("b", ⟨ans1Bob, true, noFlags⟩)]⟩),
     (2, ⟨false, [("a", ⟨ans2Alice, true, noFlags⟩)]⟩)]⟩

/-- Alice's cumulative score after the host invalidates her (previously
valid, scored) round-1 Name answer. -/
def scoreAfterInvalidate : Option Nat :=
  match invalidateAnswer midRoundState "b" 1 "a" Cat.Name true with
  | Except.ok p => scoreOf p.1 "a"
  | Except.error _ => none

/-- Counterexample to claim C5 as stated.  In the reachable mid-game room
the host invalidates Alice's previously valid scored round-1 answer, and
her cumulative score rises from 10 to 40: the full recompute folds in her
four pending unscored round-2 answers (40 points) while removing the
invalidated 10, so invalidation increased the score. -/
theorem invalidate_increase_cex :
    scoreOf midRoundState "a" = some 10 ∧ scoreAfterInvalidate = some 40 ∧ ¬ (40 ≤ 10) := by
  decide

/-- Claim C5 as amended.  Provided the target player's stored cumulative
score agrees with a full recompute of the ledger at the time of the host
action (in particular, no unscored submissions are pending), the host
invalidating a previously valid scored answer never increases that
player's cumulative score, and un-invalidating the same answer with no
other state change restores the score to its pre-invalidation value. -/
theorem invalidate_monotone_restore (st : RoomState) (caller target : String) (r : Nat)
    (cat : Cat) (rd : RoundData) (ent : PlayerEntry)
    (hhost : st.hostSocket = caller)
    (hrd : lookupRound st.ledger r = some rd)
    (hent : lookupEntry rd.entries target = some ent)
    (hflag : ent.invalid cat = false)
    (hcons : scoreOf st target =
      some (recomputeTotals st.players st.usedLetters st.ledger target)) :
    ∃ st1 ev1 st2 ev2,
      invalidateAnswer st caller r target cat true = Except.ok (st1, ev1) ∧
      invalidateAnswer st1 caller r target cat false = Except.ok (st2, ev2) ∧
      (∀ n0 n1, scoreOf st target = some n0 → scoreOf st1 target = some n1 → n1 ≤ n0) ∧
      scoreOf st2 target = scoreOf st target := by
  set entInv : PlayerEntry :=
    { ent with invalid := fun c => if c = cat then true else ent.invalid c } with hEntInv
  set E1 : List (String × PlayerEntry) := setEntry rd.entries target entInv with hE1
  set L1 : List (Nat × RoundData) := setRound st.ledger r { rd with entries := E1 } with hL1def
  set st1 : RoomState := (recomputeRoundScores { st with ledger := L1 } r).1 with hst1
  have h1 : invalidateAnswer st caller r target cat true =
      Except.ok (recomputeRoundScores { st with ledger := L1 } r) :=
    invalidateAnswer_ok st caller r target cat true rd ent hhost hrd hent
  have hL1 : st1.ledger = setRound st.ledger r ⟨true, E1⟩ := by
    show setScoredTrue (setRound st.ledger r { rd with entries := E1 }) r = _
    unfold setScoredTrue
    simp only [lookupRound_setRound_self, setRound_setRound]
  have hhost1 : st1.hostSocket = caller := hhost
  have hrd1 : lookupRound st1.ledger r = some (⟨true, E1⟩ : RoundData) := by
    rw [hL1]
    exact lookupRound_setRound_self _ _ _
  have hent1 : lookupEntry E1 target = some entInv := lookupEntry_setEntry_self _ _ _
  set entRest : PlayerEntry :=
    { entInv with invalid := fun c => if c = cat then false else entInv.invalid c } with hEntRest
  have h2 : invalidateAnswer st1 caller r target cat false =
      Except.ok (recomputeRoundScores
        { st1 with ledger := (setRound st1.ledger r
          { (⟨true, E1⟩ : RoundData) with entries := (setEntry E1 target entRest) }) } r) :=
    invalidateAnswer_ok st1 caller r target cat false ⟨true, E1⟩ entInv hhost1 hrd1 hent1
  have hvE : entRest = ent := by
    have hinv : (fun c => if c = cat then false else entInv.invalid c) = ent.invalid := by
      funext c
      by_cases hc : c = cat
      · rw [hc, if_pos rfl]
        exact hflag.symm
      · rw [if_neg hc]
        show (if c = cat then true else ent.invalid c) = ent.invalid c
        rw [if_neg hc]
    show ({ entInv with invalid := fun c => if c = cat then false else entInv.invalid c } :
      PlayerEntry) = ent
    rw [hinv]
  have hE2 : setEntry E1 target entRest = rd.entries := by
    rw [hvE]
    show setEntry (setEntry rd.entries target entInv) target ent = rd.entries
    rw [setEntry_setEntry]
    exact setEntry_self _ _ _ hent
  have hX2L : setRound st1.ledger r
      ({ (⟨true, E1⟩ : RoundData) with entries := (setEntry E1 target entRest) }) =
      setRound st.ledger r ⟨true, rd.entries⟩ := by
    rw [hL1, setRound_setRound, hE2]
  have hn0' : findScore st.players target =
      some (recomputeTotals st.players st.usedLetters st.ledger target) := hcons
  have hsc1 : scoreOf st1 target = (findScore st.players target).map
      (fun _ => recomputeTotals st.players st.usedLetters L1 target) := by
    show findScore (st.players.map (fun p => { p with score := (recomputeTotals
      st.players st.usedLetters L1 p.socketId) })) target = _
    exact findScore_map_score st.players _ target
  have hle1 : recomputeTotals st.players st.usedLetters L1 target ≤
      recomputeTotals st.players st.usedLetters st.ledger target :=
    recomputeTotals_setRound_le st.players st.usedLetters st.ledger r rd
      { rd with entries := E1 } target
      (roundScoresRec_invalidate_le st.players rd.entries (letterOfRec st.usedLetters r)
        target cat ent hent) hrd
  have hrt2 : recomputeTotals st1.players st1.usedLetters (setRound st1.ledger r
      ({ (⟨true, E1⟩ : RoundData) with entries := (setEntry E1 target entRest) })) target =
      recomputeTotals st.players st.usedLetters st.ledger target := by
    rw [hX2L]
    show recomputeTotals (st.players.map (fun p => { p with score := (recomputeTotals
        st.players st.usedLetters L1 p.socketId) })) st.usedLetters
        (setRound st.ledger r ⟨true, rd.entries⟩) target = _
    exact (recomputeTotals_map_score st.players
        (fun s => recomputeTotals st.players st.usedLetters L1 s) st.usedLetters
        (setRound st.ledger r ⟨true, rd.entries⟩) target).trans
      (recomputeTotals_setRound_eq st.players st.usedLetters st.ledger r rd
        ⟨true, rd.entries⟩ target rfl hrd)
  have hsc2 : scoreOf (recomputeRoundScores
      { st1 with ledger := (setRound st1.ledger r
        { (⟨true, E1⟩ : RoundData) with entries := (setEntry E1 target entRest) }) } r).1 target =
      (findScore st1.players target).map
        (fun _ => recomputeTotals st1.players st1.usedLetters (setRound st1.ledger r
          ({ (⟨true, E1⟩ : RoundData) with entries := (setEntry E1 target entRest) })) target) := by
    show findScore (st1.players.map (fun p => { p with score := (recomputeTotals
      st1.players st1.usedLetters (setRound st1.ledger r
        ({ (⟨true, E1⟩ : RoundData) with entries := (setEntry E1 target entRest) }))
        p.socketId) })) target = _
    exact findScore_map_score st1.players _ target
  have hf1 : findScore st1.players target = (findScore st.players target).map
      (fun _ => recomputeTotals st.players st.usedLetters L1 target) := by
    show findScore (st.players.map (fun p => { p with score := (recomputeTotals
      st.players st.usedLetters L1 p.socketId) })) target = _
    exact findScore_map_score st.players _ target
  refine ⟨_, _, _, _, h1, h2, ?_, ?_⟩
  · intro n0 n1 h0 hn1
    have e0 : n0 = recomputeTotals st.players st.usedLetters st.ledger target :=
      Option.some.inj (h0.symm.trans hcons)
    have e1 : some n1 = (findScore st.players target).map
        (fun _ => recomputeTotals st.players st.usedLetters L1 target) :=
      hn1.symm.trans hsc1
    rw [hn0', Option.map_some'] at e1
    have e1' : n1 = recomputeTotals st.players st.usedLetters L1 target :=
      Option.some.inj e1
    rw [e0, e1']
    exact hle1
  · have hfin : scoreOf (recomputeRoundScores
        { st1 with ledger := (setRound st1.ledger r
          { (⟨true, E1⟩ : RoundData) with entries := (setEntry E1 target entRest) }) } r).1
        target = some (recomputeTotals st.players st.usedLetters st.ledger target) := by
      rw [hsc2, hf1, hn0', Option.map_some', Option.map_some', hrt2]
    exact hfin.trans hcons.symm

/-- Ann's single scored answer for the consistent one-player room. -/
def annAnswers : Cat → List Nat := fun c =>
  match c with
  | Cat.Name => [66, 111, 98]
  | _ => []

/-- A one-player room whose stored score (10) agrees with a full ledger
recompute: round 1 was scored and nothing is pending. -/
def consistentState : RoomState :=
  ⟨"R", "", "a", [⟨"a", "Ann", 10⟩], 1, [some 66],
    [(1, ⟨true, [("a", ⟨annAnswers, true, noFlags⟩)]⟩)]⟩

/-- Witness for C5's amended claim at the concrete consistent room: the
host invalidates and then restores Ann's scored Name answer. -/
theorem invalidate_monotone_restore_witness :
    ∃ st1 ev1 st2 ev2,
      invalidateAnswer consistentState "a" 1 "a" Cat.Name true = Except.ok (st1, ev1) ∧
      invalidateAnswer st1 "a" 1 "a" Cat.Name false = Except.ok (st2, ev2) ∧
      (∀ n0 n1, scoreOf consistentState "a" = some n0 → scoreOf st1 "a" = some n1 → n1 ≤ n0) ∧
      scoreOf st2 "a" = scoreOf consistentState "a" :=
  invalidate_monotone_restore consistentState "a" "a" 1 Cat.Name
    ⟨true, [("a", ⟨annAnswers, true, noFlags⟩)]⟩ ⟨annAnswers, true, noFlags⟩
    rfl rfl rfl rfl (by decide)
